import Mathlib

/-!
Shallow embedding of `bot.py` (market-report Telegram bot).

Conventions of the embedding:
* Python strings are `List Char`; Python floats are modelled as exact
  rationals `ℚ`; Python ints are `Int`; a value that may be `None` is an
  `Option`.
* Fallible or possibly non-terminating code is modelled with `Option`
  results; the `while` loop of `chunk_text` is given an explicit fuel
  parameter, `none` meaning the loop did not finish within the fuel.
* Numeric text rendering (`f"{x:+.2f}"` and friends) is modelled by an
  exact-rational renderer `fmQ`; the digit strings themselves are never
  inspected by any theorem, only presence/absence and line structure.
-/

namespace Bot

/-! ## Report Transport: `chunk_text` (bot.py lines 257-268) and `str.rfind` -/

/-- Index of the last occurrence of a newline in a character list, if any.
Models Python `s.rfind("\n")` restricted to the searched slice. -/
def rfindNlPre : List Char → Option Nat
  | [] => none
  | c :: rest =>
    match rfindNlPre rest with
    | some j => some (j + 1)
    | none => if c = '\n' then some 0 else none

/-- Python `s.rfind("\n", 0, limit)`: last newline index in `s[0:limit]`,
`none` standing for Python's `-1`. -/
def rfindNl (s : List Char) (limit : Nat) : Option Nat :=
  rfindNlPre (s.take limit)

/-- The cut position chosen by one iteration of the `chunk_text` loop:
`cut = cur.rfind("\n", 0, limit); if cut == -1: cut = limit`. -/
def cutAt (limit : Nat) (cur : List Char) : Nat :=
  (rfindNl cur limit).getD limit

/-- The `while len(cur) > limit` loop of `chunk_text`, with fuel.
`none` means the fuel ran out before the loop finished. -/
def chunkLoop (limit : Nat) : Nat → List Char → Option (List (List Char))
  | 0, cur =>
    if limit < cur.length then none
    else if cur = [] then some [] else some [cur]
  | fuel + 1, cur =>
    if limit < cur.length then
      (chunkLoop limit fuel (cur.drop (cutAt limit cur))).map
        (fun cs => cur.take (cutAt limit cur) :: cs)
    else if cur = [] then some [] else some [cur]

/-- `chunk_text(s, limit=3500)` from bot.py lines 257-268 (fuelled). -/
def chunk_text (fuel : Nat) (s : List Char) (limit : Nat) : Option (List (List Char)) :=
  if s.length ≤ limit then some [s] else chunkLoop limit fuel s

/-- A text whose only newline in the first 3500 characters sits at index 0:
the `chunk_text` loop picks `cut = 0` on it and makes no progress. -/
def stuckText : List Char := '\n' :: List.replicate 3600 'a'

/-! ## Indicator Engine (inside `yf_get_symbol`, bot.py lines 101-133) -/

/-- `close.diff().dropna()`: successive close-to-close differences. -/
def diffs (close : List ℚ) : List ℚ :=
  List.zipWith (fun a b => a - b) (close.drop 1) close

/-- `delta.clip(lower=0)`: gains. -/
def ups (close : List ℚ) : List ℚ :=
  (diffs close).map (fun d => max d 0)

/-- `-delta.clip(upper=0)`: loss magnitudes. -/
def downs (close : List ℚ) : List ℚ :=
  (diffs close).map (fun d => max (-d) 0)

/-- The recursion of `ewm(alpha=a, adjust=False).mean()` starting from seed
`x`: `s_t = s_(t-1) + a * (x_t - s_(t-1))`. -/
def ewma (a : ℚ) (x : ℚ) (xs : List ℚ) : ℚ :=
  xs.foldl (fun s y => s + a * (y - s)) x

/-- Last element of `xs.ewm(alpha=a, adjust=False).mean()`: seeded with the
first raw value (no warm-up bias), `none` on an empty series. -/
def ewmLast (a : ℚ) : List ℚ → Option ℚ
  | [] => none
  | x :: xs => some (ewma a x xs)

/-- `rsi14` computation of `yf_get_symbol` (bot.py lines 118-129). -/
def rsi14 (close : List ℚ) : Option ℚ :=
  if 15 ≤ close.length then
    match ewmLast (1 / 14) (ups close), ewmLast (1 / 14) (downs close) with
    | some g, some l =>
      if l ≠ 0 then some (100 - 100 / (1 + g / l)) else some 100
    | _, _ => none
  else none

/-- `sma20 = close.rolling(20).mean().iloc[-1] if len(close) >= 20 else None`
(bot.py line 116): mean of the last 20 closes. -/
def sma20 (close : List ℚ) : Option ℚ :=
  if 20 ≤ close.length then some ((close.drop (close.length - 20)).sum / 20)
  else none

/-- Lines 109-111 of `yf_get_symbol`: last close, previous close
(second-to-last, or last itself when the series has a single entry) and
percent change (`0` when the previous close is `0`). `none` on an empty
series. -/
def lastPrevPct (close : List ℚ) : Option (ℚ × ℚ × ℚ) :=
  match close.getLast? with
  | none => none
  | some last =>
    let prev := if 2 ≤ close.length then close.getD (close.length - 2) 0 else last
    let pct := if prev ≠ 0 then (last / prev - 1) * 100 else 0
    some (last, prev, pct)

/-- A 15-session flat close series (for witnessing the RSI computation). -/
def flat15 : List ℚ := List.replicate 15 10

/-! ## Per-symbol snapshot and report pieces (`build_report`, bot.py 151-255) -/

/-- The dict returned by `yf_get_symbol` (bot.py line 130). -/
structure SymbolInfo where
  price : ℚ
  pct : ℚ
  vol : Option Int
  avg5_price : Option ℚ
  avg5_vol : Option Int
  sma20 : Option ℚ
  sma50 : Option ℚ
  rsi14 : Option ℚ
deriving DecidableEq

/-- The index info dict (`{"last": ..., "pct": ...}`). -/
structure IdxInfo where
  last : ℚ
  pct : Option ℚ
deriving DecidableEq

/-- Python truthiness of an optional int (`None` and `0` are falsy). -/
def pyTruthyInt : Option Int → Bool
  | none => false
  | some v => v ≠ 0

/-- `vol_ratio = (vol / avgvol20) if vol and avgvol20 else None`
(bot.py line 229, and identically line 244). -/
def pyVolRatio (vol avg : Option Int) : Option ℚ :=
  match vol, avg with
  | some v, some a => if v ≠ 0 ∧ a ≠ 0 then some ((v : ℚ) / (a : ℚ)) else none
  | _, _ => none

/-- Exact-rational rendering of a number (models Python float formatting;
no theorem inspects the digits). -/
def fmQ (q : ℚ) : List Char :=
  (toString q.num).toList ++ (if q.den = 1 then [] else '/' :: (toString q.den).toList)

/-- `fm_pct` (bot.py lines 53-55). -/
def fm_pct : Option ℚ → List Char
  | none => "—".toList
  | some x => (if 0 ≤ x then ['+'] else []) ++ fmQ x ++ ['%']

/-- `fm_shares_million` (bot.py lines 46-51). -/
def fm_shares_million : Option Int → List Char
  | none => "—".toList
  | some v => fmQ ((v : ℚ) / 1000000) ++ " Mn".toList

/-- `fm_money_million` (bot.py lines 39-44). -/
def fm_money_million : Option ℚ → List Char
  | none => "—".toList
  | some v => fmQ (v / 1000000) ++ " Mn".toList

/-- `vol_ratio_s = f" (VolRatio={vol_ratio:.2f}×)" if vol_ratio else ""`
(bot.py lines 229-230): the volume-ratio suffix of a detail line. -/
def vol_ratio_s (vol avg : Option Int) : List Char :=
  match pyVolRatio vol avg with
  | some r => if r ≠ 0 then " (VolRatio=".toList ++ fmQ r ++ "×)".toList else []
  | none => []

/-- The per-symbol detail line (bot.py line 231). -/
def detailLine (s : List Char) (info : SymbolInfo) (fb fs : Option ℚ) : List Char :=
  s ++ ": ".toList
    ++ (if info.price ≠ 0 then fmQ info.price else "—".toList)
    ++ " ".toList ++ fm_pct (some info.pct)
    ++ " | KL=".toList ++ fm_shares_million info.vol
    ++ vol_ratio_s info.vol info.avg5_vol
    ++ " | TB tuần: ".toList
    ++ (match info.avg5_price with
        | some a => if a ≠ 0 then fmQ a else "—".toList
        | none => "—".toList)
    ++ " / ".toList ++ fm_shares_million info.avg5_vol
    ++ " | NN: Mua ".toList ++ fm_money_million fb
    ++ " / Bán ".toList ++ fm_money_million fs

/-- The placeholder detail line on a failed fetch (bot.py line 221). -/
def placeholderLine (s : List Char) : List Char :=
  s ++ ": — (lỗi dữ liệu)".toList

/-- The detail line chosen for one symbol (bot.py lines 220-231). -/
def lineFor (fetch : List Char → Option SymbolInfo)
    (foreign : List Char → Option ℚ × Option ℚ) (s : List Char) : List Char :=
  match fetch s with
  | none => placeholderLine s
  | some info => detailLine s info (foreign s).1 (foreign s).2

/-- The detail-section loop of `build_report` (bot.py lines 207-231):
returns the detail lines and the trace of `yf_get_symbol` calls. -/
def detailPass (fetch : List Char → Option SymbolInfo)
    (foreign : List Char → Option ℚ × Option ℚ) :
    List (List Char) → List (List Char) × List (List Char)
  | [] => ([], [])
  | s :: rest =>
    let r := detailPass fetch foreign rest
    (lineFor fetch foreign s :: r.1, s :: r.2)

/-- Alert variants (`build_report`, bot.py lines 239-246). -/
inductive AlertKind
  | surgeUp
  | surgeDown
  | volumeSpike
deriving DecidableEq

/-- The `if/elif` percent-change rules of the alerts loop (bot.py 239-242). -/
def surgeAlerts (up down : ℚ) (info : SymbolInfo) : List AlertKind :=
  if up ≤ info.pct then [AlertKind.surgeUp]
  else if info.pct ≤ down then [AlertKind.surgeDown]
  else []

/-- The volume-spike rule of the alerts loop (bot.py 244-246), guarded by
`if vol_ratio and vol_ratio >= VOL_SURGE_MULT`. -/
def spikeAlerts (mult : ℚ) (info : SymbolInfo) : List AlertKind :=
  match pyVolRatio info.vol info.avg5_vol with
  | some r => if r ≠ 0 ∧ mult ≤ r then [AlertKind.volumeSpike] else []
  | none => []

/-- The alert rules applied to one symbol's info (bot.py lines 239-246):
an `if/elif` on percent change, then the independent volume-spike check. -/
def evalAlerts (up down mult : ℚ) (info : SymbolInfo) : List AlertKind :=
  surgeAlerts up down info ++ spikeAlerts mult info

/-- The alerts loop of `build_report` (bot.py lines 236-246): re-fetches
every symbol; returns the tagged alerts and the trace of `yf_get_symbol`
calls. -/
def alertsPass (fetch : List Char → Option SymbolInfo) (up down mult : ℚ) :
    List (List Char) → List (List Char × AlertKind) × List (List Char)
  | [] => ([], [])
  | s :: rest =>
    let r := alertsPass fetch up down mult rest
    ((match fetch s with
      | none => []
      | some info => (evalAlerts up down mult info).map (fun k => (s, k))) ++ r.1,
     s :: r.2)

/-- Index resolution (bot.py lines 157-174): the vnstock attempt first,
`yf_get_index` exactly once iff it yielded nothing. Returns the chosen
info and the number of `yf_get_index` calls. -/
def indexFetch (vnsIdx yfIdx : Option IdxInfo) : Option IdxInfo × Nat :=
  match vnsIdx with
  | some i => (some i, 0)
  | none => (yfIdx, 1)

/-- The full sequence of `yf_get_symbol` calls made by one `build_report`
run (detail loop then alerts loop). -/
def build_report_fetchTrace (fetch : List Char → Option SymbolInfo)
    (foreign : List Char → Option ℚ × Option ℚ) (up down mult : ℚ)
    (symbols : List (List Char)) : List (List Char) :=
  (detailPass fetch foreign symbols).2 ++ (alertsPass fetch up down mult symbols).2

/-- The index line (bot.py lines 176-179). -/
def indexLine (idx : Option IdxInfo) : List Char :=
  match idx with
  | some i => "📈 VN-Index: ".toList ++ fmQ i.last ++ " (".toList
      ++ fm_pct i.pct ++ ") | GTGD: ".toList ++ fm_money_million none
  | none => "📈 VN-Index: — (lỗi dữ liệu)".toList

/-- The market-wide foreign-flow line (bot.py lines 188-200). -/
def marketFlowLine (fmarket : Option (Option ℚ × Option ℚ)) : List Char :=
  match fmarket with
  | some (fb, fs) =>
    "🔁 Khối ngoại (toàn TT): Mua ".toList ++ fm_money_million fb
      ++ " / Bán ".toList ++ fm_money_million fs
      ++ " → Ròng ".toList
      ++ fm_money_million (match fb, fs with
          | some b, some s => some (b - s)
          | _, _ => none)
  | none => "🔁 Khối ngoại (toàn TT): —".toList

/-- Rendering of one alert entry (bot.py lines 240-246, structure only). -/
def alertLine : List Char × AlertKind → List Char
  | (s, AlertKind.surgeUp) => "🔥 ".toList ++ s ++ " tăng mạnh".toList
  | (s, AlertKind.surgeDown) => "📉 ".toList ++ s ++ " giảm sâu".toList
  | (s, AlertKind.volumeSpike) => "📊 ".toList ++ s ++ " KLGD đột biến".toList

/-- The assembled report lines of `build_report` (bot.py lines 151-255). -/
def build_report_lines (vnsIdx yfIdx : Option IdxInfo)
    (fmarket : Option (Option ℚ × Option ℚ))
    (fetch : List Char → Option SymbolInfo)
    (foreign : List Char → Option ℚ × Option ℚ)
    (up down mult : ℚ) (symbols : List (List Char)) (now : List Char) :
    List (List Char) :=
  let alerts := (alertsPass fetch up down mult symbols).1
  ("📊 Báo cáo thị trường — ".toList ++ now)
    :: indexLine (indexFetch vnsIdx yfIdx).1
    :: marketFlowLine fmarket
    :: []
    :: "📌 Chi tiết mã:".toList
    :: (detailPass fetch foreign symbols).1
    ++ ([] :: "⚠️ Alerts:".toList
      :: (if alerts = [] then ["(Không có cảnh báo)".toList] else alerts.map alertLine))
    ++ [[], "(Thời gian báo cáo: ".toList ++ now ++ ") - Bot_fixed".toList]

/-! ## Report Transport and `main` (bot.py lines 270-303) -/

/-- Outcome of one `send_to_telegram` call: overall success flag, the
full-text console prints it performed, and the number of HTTP posts it
attempted. -/
structure TransportResult where
  ok : Bool
  printed : List (List Char)
  posts : Nat
deriving DecidableEq

/-- `send_to_telegram` (bot.py lines 270-288). Credentials are falsy when
empty; `post` models `requests.post` (its status code, `none` for a raised
exception); `none` overall if the chunking loop does not finish. -/
def send_to_telegram (botToken chatId : List Char) (post : List Char → Option Nat)
    (fuel : Nat) (text : List Char) : Option TransportResult :=
  if botToken = [] ∨ chatId = [] then some ⟨false, [text], 0⟩
  else
    match chunk_text fuel text 3500 with
    | none => none
    | some parts =>
      some ⟨parts.all (fun p => post p = some 200), [], parts.length⟩

/-- `print("=== Report preview ===")` header of `main` (bot.py line 293). -/
def previewHeader : List Char := "=== Report preview ===".toList

/-- `main` (bot.py lines 290-303), restricted to its console effects:
the preview header, the report preview print, then whatever
`send_to_telegram` prints; paired with the send result. -/
def main_console (botToken chatId : List Char) (post : List Char → Option Nat)
    (fuel : Nat) (report : List Char) : Option (List (List Char) × Bool) :=
  match send_to_telegram botToken chatId post fuel report with
  | none => none
  | some tr => some (previewHeader :: report :: tr.printed, tr.ok)

/-! ## Helper lemmas: `str.rfind` and the chunking loop -/

theorem get?_take_lt {α : Type} :
    ∀ (l : List α) (n i : Nat), i < n → (l.take n).get? i = l.get? i
  | [], _, _, _ => by simp
  | _ :: _, n + 1, 0, _ => rfl
  | a :: l, n + 1, i + 1, h => by
    simpa using get?_take_lt l n i (Nat.lt_of_succ_lt_succ h)

theorem rfindNlPre_cons (c : Char) (l : List Char) :
    rfindNlPre (c :: l) =
      match rfindNlPre l with
      | some j => some (j + 1)
      | none => if c = '\n' then some 0 else none := rfl

theorem rfindNlPre_eq_none {l : List Char} : rfindNlPre l = none ↔ '\n' ∉ l := by
  induction l with
  | nil => simp [rfindNlPre]
  | cons c rest ih =>
    simp only [rfindNlPre, List.mem_cons]
    cases h : rfindNlPre rest with
    | some j =>
      have hmem : '\n' ∈ rest := by
        by_contra hn
        rw [ih.mpr hn] at h
        cases h
      simp [hmem]
    | none =>
      have hrest : '\n' ∉ rest := ih.mp h
      by_cases hc : c = '\n'
      · simp [hc]
      · have hcs : ¬ '\n' = c := fun e => hc e.symm
        simp [hc, hrest, hcs]

theorem rfindNlPre_some {l : List Char} {i : Nat} (h : rfindNlPre l = some i) :
    i < l.length ∧ l.get? i = some '\n' ∧ ∀ j, i < j → l.get? j ≠ some '\n' := by
  induction l generalizing i with
  | nil => simp [rfindNlPre] at h
  | cons c rest ih =>
    simp only [rfindNlPre] at h
    cases hr : rfindNlPre rest with
    | some j =>
      rw [hr] at h
      obtain rfl : j + 1 = i := by simpa using h
      obtain ⟨h1, h2, h3⟩ := ih hr
      refine ⟨by simpa using Nat.succ_lt_succ h1, by simpa using h2, ?_⟩
      intro k hk
      match k, hk with
      | k + 1, hk => simpa using h3 k (Nat.lt_of_succ_lt_succ hk)
    | none =>
      rw [hr] at h
      by_cases hc : c = '\n'
      · rw [if_pos hc] at h
        obtain rfl : 0 = i := by simpa using h
        have hrest : '\n' ∉ rest := rfindNlPre_eq_none.mp hr
        refine ⟨by simp, by simpa using hc, ?_⟩
        intro k hk
        match k, hk with
        | k + 1, _ =>
          simp only [List.get?]
          intro he
          exact hrest (List.get?_mem he)
      · rw [if_neg hc] at h
        cases h

theorem rfindNl_eq_none {s : List Char} {limit : Nat} :
    rfindNl s limit = none ↔ '\n' ∉ s.take limit :=
  rfindNlPre_eq_none

theorem rfindNl_some {s : List Char} {limit i : Nat} (h : rfindNl s limit = some i) :
    i < limit ∧ i < s.length ∧ s.get? i = some '\n' ∧
      ∀ j, i < j → j < limit → s.get? j ≠ some '\n' := by
  obtain ⟨h1, h2, h3⟩ := rfindNlPre_some h
  rw [List.length_take, Nat.lt_min] at h1
  refine ⟨h1.1, h1.2, ?_, ?_⟩
  · rw [get?_take_lt s limit i h1.1] at h2
    exact h2
  · intro j hij hjl he
    exact h3 j hij (by rw [get?_take_lt s limit j hjl]; exact he)

theorem cutAt_le (limit : Nat) (cur : List Char) : cutAt limit cur ≤ limit := by
  unfold cutAt
  cases h : rfindNl cur limit with
  | none => simp
  | some i => simpa using Nat.le_of_lt (rfindNl_some h).1

theorem chunkLoop_small {limit : Nat} {cur : List Char} (h : ¬ limit < cur.length) :
    ∀ fuel, chunkLoop limit fuel cur = if cur = [] then some [] else some [cur] := by
  intro fuel
  cases fuel <;> simp [chunkLoop, h]

theorem chunkLoop_base {limit : Nat} {cur : List Char} {cs : List (List Char)}
    (hnl : ¬ limit < cur.length)
    (h : (if cur = [] then some [] else some [cur]) = some cs) :
    (∀ c ∈ cs, c.length ≤ limit) ∧ cs.flatten = cur := by
  by_cases hc : cur = []
  · rw [if_pos hc] at h
    obtain rfl : ([] : List (List Char)) = cs := by simpa using h
    simp [hc]
  · rw [if_neg hc] at h
    obtain rfl : [cur] = cs := by simpa using h
    exact ⟨by simpa using Nat.le_of_not_lt hnl, by simp⟩

theorem chunkLoop_sound {limit : Nat} :
    ∀ (fuel : Nat) (cur : List Char) (cs : List (List Char)),
      chunkLoop limit fuel cur = some cs →
      (∀ c ∈ cs, c.length ≤ limit) ∧ cs.flatten = cur := by
  intro fuel
  induction fuel with
  | zero =>
    intro cur cs h
    simp only [chunkLoop] at h
    by_cases hl : limit < cur.length
    · rw [if_pos hl] at h; cases h
    · rw [if_neg hl] at h; exact chunkLoop_base hl h
  | succ fuel ih =>
    intro cur cs h
    simp only [chunkLoop] at h
    by_cases hl : limit < cur.length
    · rw [if_pos hl, Option.map_eq_some'] at h
      obtain ⟨cs', hcs', rfl⟩ := h
      obtain ⟨hlen, hjoin⟩ := ih _ _ hcs'
      constructor
      · intro c hc
        rcases List.mem_cons.mp hc with rfl | hmem
        · calc (cur.take (cutAt limit cur)).length
              ≤ cutAt limit cur := by
                rw [List.length_take]; exact Nat.min_le_left _ _
            _ ≤ limit := cutAt_le limit cur
        · exact hlen c hmem
      · rw [List.flatten_cons, hjoin, List.take_append_drop]
    · rw [if_neg hl] at h; exact chunkLoop_base hl h

theorem chunkLoop_stuck_cut : cutAt 3500 stuckText = 0 := by
  have htake : stuckText.take 3500 = '\n' :: List.replicate 3499 'a' := by
    rw [stuckText, show (3500 : Nat) = 3499 + 1 from rfl, List.take_succ_cons,
      List.take_replicate]
    norm_num
  have hnone : rfindNlPre (List.replicate 3499 'a') = none := by
    refine rfindNlPre_eq_none.mpr ?_
    simp only [List.mem_replicate]
    rintro ⟨-, h⟩
    exact absurd h (by decide)
  rw [cutAt, rfindNl, htake, rfindNlPre_cons, hnone]
  simp

theorem stuckText_length : stuckText.length = 3601 := by
  rw [stuckText, List.length_cons, List.length_replicate]

theorem chunkLoop_stuck : ∀ fuel, chunkLoop 3500 fuel stuckText = none := by
  have hlen : 3500 < stuckText.length := by rw [stuckText_length]; omega
  intro fuel
  induction fuel with
  | zero =>
    simp only [chunkLoop]
    rw [if_pos hlen]
  | succ fuel ih =>
    simp only [chunkLoop]
    rw [if_pos hlen, chunkLoop_stuck_cut, List.drop_zero, ih]
    rfl

/-! ## Claim theorems: chunking -/

/-- C2 (amended): whenever the chunking loop terminates, `chunk_text` with
limit 3500 returns chunks of length at most 3500 whose concatenation is the
original text; each loop step cuts at the last newline in the 3500-character
window when one exists and hard at 3500 otherwise; a 3500-character text
ending in a newline is one chunk; a 4000-character text with no newline in
its first 3500 characters splits into chunks of 3500 and 500 characters. -/
theorem chunk_text_spec :
    (∀ fuel s cs, chunk_text fuel s 3500 = some cs →
        (∀ c ∈ cs, c.length ≤ 3500) ∧ cs.flatten = s) ∧
    (∀ cur : List Char, 3500 < cur.length →
        (∀ fuel, chunkLoop 3500 (fuel + 1) cur =
          (chunkLoop 3500 fuel (cur.drop (cutAt 3500 cur))).map
            (fun cs => cur.take (cutAt 3500 cur) :: cs)) ∧
        ((∃ i, rfindNl cur 3500 = some i ∧ cutAt 3500 cur = i ∧
            cur.get? i = some '\n' ∧
            ∀ j, i < j → j < 3500 → cur.get? j ≠ some '\n') ∨
          (rfindNl cur 3500 = none ∧ cutAt 3500 cur = 3500 ∧
            ∀ j, j < 3500 → cur.get? j ≠ some '\n'))) ∧
    (∀ fuel s, s.length = 3500 → s.getLast? = some '\n' →
        chunk_text fuel s 3500 = some [s]) ∧
    (∀ fuel s, s.length = 4000 → '\n' ∉ s.take 3500 →
        chunk_text (fuel + 1) s 3500 = some [s.take 3500, s.drop 3500] ∧
        (s.take 3500).length = 3500 ∧ (s.drop 3500).length = 500) := by
  refine ⟨?_, ?_, ?_, ?_⟩
  · intro fuel s cs h
    rw [chunk_text] at h
    by_cases hs : s.length ≤ 3500
    · rw [if_pos hs] at h
      obtain rfl : [s] = cs := by simpa using h
      exact ⟨by simpa using hs, by simp⟩
    · rw [if_neg hs] at h
      exact chunkLoop_sound fuel s cs h
  · intro cur hl
    constructor
    · intro fuel
      simp [chunkLoop, hl]
    · cases hr : rfindNl cur 3500 with
      | some i =>
        obtain ⟨_, _, hget, hmax⟩ := rfindNl_some hr
        exact Or.inl ⟨i, rfl, by simp [cutAt, hr], hget, hmax⟩
      | none =>
        refine Or.inr ⟨rfl, by simp [cutAt, hr], ?_⟩
        intro j hj he
        exact rfindNl_eq_none.mp hr
          (List.get?_mem (by rw [get?_take_lt cur 3500 j hj]; exact he))
  · intro fuel s hlen _
    rw [chunk_text, if_pos (by omega)]
  · intro fuel s hlen hnl
    have hcut : cutAt 3500 s = 3500 := by
      simp [cutAt, rfindNl_eq_none.mpr hnl]
    have hdroplen : (s.drop 3500).length = 500 := by
      rw [List.length_drop, hlen]
    have hdrop_ne : s.drop 3500 ≠ [] := by
      intro he
      rw [he] at hdroplen
      simp at hdroplen
    refine ⟨?_, by rw [List.length_take, hlen]; omega, hdroplen⟩
    rw [chunk_text, if_neg (by omega)]
    simp only [chunkLoop, if_pos (show 3500 < s.length by omega), hcut]
    rw [chunkLoop_small (by omega) fuel, if_neg hdrop_ne]
    rfl

/-- C2 witness: the 4000-character newline-free text `'a' * 4000` is split
into its first 3500 and last 500 characters. -/
theorem chunk_text_spec_witness :
    ((List.replicate 4000 'a').length = 4000 ∧
      '\n' ∉ (List.replicate 4000 'a').take 3500) ∧
    (chunk_text 1 (List.replicate 4000 'a') 3500 =
        some [(List.replicate 4000 'a').take 3500, (List.replicate 4000 'a').drop 3500] ∧
      ((List.replicate 4000 'a').take 3500).length = 3500 ∧
      ((List.replicate 4000 'a').drop 3500).length = 500) := by
  have h1 : (List.replicate 4000 'a').length = 4000 := by
    rw [List.length_replicate]
  have h2 : '\n' ∉ (List.replicate 4000 'a').take 3500 := by
    rw [List.take_replicate]
    simp only [List.mem_replicate]
    rintro ⟨-, h⟩
    exact absurd h (by decide)
  exact ⟨⟨h1, h2⟩, chunk_text_spec.2.2.2 0 _ h1 h2⟩

/-- C2 counterexample: on the text `"\n" ++ "a" * 3600` the chunking loop
never returns (no fuel suffices), so `chunk_text` does not return chunks
reconstructing every input text. -/
theorem chunk_text_claim_cex :
    ¬ ∃ fuel cs, chunk_text fuel stuckText 3500 = some cs := by
  rintro ⟨fuel, cs, h⟩
  rw [chunk_text, if_neg (by rw [stuckText_length]; omega), chunkLoop_stuck fuel] at h
  cases h

/-- C3: the claim that `chunk_text` terminates on every input is wrong: on
`"\n" ++ "a" * 3600` the loop cuts at index 0, appends an empty chunk,
leaves the remainder unchanged, and never terminates. -/
theorem chunk_text_stuck :
    3500 < stuckText.length ∧ cutAt 3500 stuckText = 0 ∧
    stuckText.take (cutAt 3500 stuckText) = [] ∧
    stuckText.drop (cutAt 3500 stuckText) = stuckText ∧
    ∀ fuel, chunk_text fuel stuckText 3500 = none := by
  refine ⟨by rw [stuckText_length]; omega, chunkLoop_stuck_cut,
    by rw [chunkLoop_stuck_cut]; rfl, by rw [chunkLoop_stuck_cut]; rfl, ?_⟩
  intro fuel
  rw [chunk_text, if_neg (by rw [stuckText_length]; omega)]
  exact chunkLoop_stuck fuel

/-! ## Helper lemmas: indicators -/

theorem diffs_length (close : List ℚ) : (diffs close).length = close.length - 1 := by
  simp only [diffs, List.length_zipWith, List.length_drop]
  omega

theorem ewma_nonneg {a : ℚ} (h0 : 0 ≤ a) (h1 : a ≤ 1) :
    ∀ (xs : List ℚ) (x : ℚ), 0 ≤ x → (∀ y ∈ xs, 0 ≤ y) → 0 ≤ ewma a x xs := by
  intro xs
  induction xs with
  | nil => intro x hx _; simpa [ewma] using hx
  | cons y ys ih =>
    intro x hx hall
    have hy : 0 ≤ y := hall y (by simp)
    have hstep : ewma a x (y :: ys) = ewma a (x + a * (y - x)) ys := rfl
    have hseed : 0 ≤ x + a * (y - x) := by
      have e : x + a * (y - x) = (1 - a) * x + a * y := by ring
      have t1 : 0 ≤ (1 - a) * x := mul_nonneg (by linarith) hx
      have t2 : 0 ≤ a * y := mul_nonneg h0 hy
      linarith [e ▸ (add_nonneg t1 t2 : (0:ℚ) ≤ (1 - a) * x + a * y)]
    rw [hstep]
    exact ih _ hseed (fun z hz => hall z (by simp [hz]))

theorem ewmLast_isSome {a : ℚ} {xs : List ℚ} (h : xs ≠ []) :
    ∃ v, ewmLast a xs = some v := by
  cases xs with
  | nil => exact absurd rfl h
  | cons x rest => exact ⟨ewma a x rest, rfl⟩

theorem ewmLast_nonneg {a : ℚ} (h0 : 0 ≤ a) (h1 : a ≤ 1) {xs : List ℚ}
    (hall : ∀ y ∈ xs, 0 ≤ y) {v : ℚ} (h : ewmLast a xs = some v) : 0 ≤ v := by
  cases xs with
  | nil => cases h
  | cons x rest =>
    obtain rfl : ewma a x rest = v := by simpa [ewmLast] using h
    exact ewma_nonneg h0 h1 rest x (hall x (by simp))
      (fun y hy => hall y (by simp [hy]))

theorem ups_nonneg (close : List ℚ) : ∀ y ∈ ups close, 0 ≤ y := by
  intro y hy
  simp only [ups, List.mem_map] at hy
  obtain ⟨d, -, rfl⟩ := hy
  exact le_max_right d 0

theorem downs_nonneg (close : List ℚ) : ∀ y ∈ downs close, 0 ≤ y := by
  intro y hy
  simp only [downs, List.mem_map] at hy
  obtain ⟨d, -, rfl⟩ := hy
  exact le_max_right (-d) 0

theorem ups_ne_nil {close : List ℚ} (h : 15 ≤ close.length) : ups close ≠ [] := by
  intro he
  have : (ups close).length = close.length - 1 := by
    simp [ups, diffs_length]
  rw [he] at this
  simp at this
  omega

theorem downs_ne_nil {close : List ℚ} (h : 15 ≤ close.length) : downs close ≠ [] := by
  intro he
  have : (downs close).length = close.length - 1 := by
    simp [downs, diffs_length]
  rw [he] at this
  simp at this
  omega

/-! ## Claim theorems: indicators -/

/-- C1: the 14-period RSI is absent for series of fewer than 15 closes; with
at least 15 closes it is defined and lies in `[0, 100]`; it is exactly `100`
when the Wilder-smoothed (`alpha = 1/14`, seeded with the first raw value)
average loss is `0`, and otherwise `100 - 100 / (1 + smoothedGain/smoothedLoss)`. -/
theorem rsi14_spec (close : List ℚ) :
    (close.length < 15 → rsi14 close = none) ∧
    (15 ≤ close.length →
      ∃ g l r, ewmLast (1 / 14) (ups close) = some g ∧
        ewmLast (1 / 14) (downs close) = some l ∧
        rsi14 close = some r ∧ 0 ≤ r ∧ r ≤ 100 ∧
        (l = 0 → r = 100) ∧ (l ≠ 0 → r = 100 - 100 / (1 + g / l))) := by
  constructor
  · intro h
    rw [rsi14, if_neg (by omega)]
  · intro h15
    obtain ⟨g, hg⟩ := ewmLast_isSome (a := 1 / 14) (ups_ne_nil h15)
    obtain ⟨l, hl⟩ := ewmLast_isSome (a := 1 / 14) (downs_ne_nil h15)
    have hg0 : 0 ≤ g :=
      ewmLast_nonneg (by norm_num) (by norm_num) (ups_nonneg close) hg
    have hl0 : 0 ≤ l :=
      ewmLast_nonneg (by norm_num) (by norm_num) (downs_nonneg close) hl
    by_cases hlz : l = 0
    · refine ⟨g, l, 100, hg, hl, ?_, by norm_num, by norm_num,
        fun _ => rfl, fun h => absurd hlz h⟩
      rw [rsi14, if_pos h15, hg, hl]
      simp [hlz]
    · have hlpos : 0 < l := lt_of_le_of_ne hl0 (Ne.symm hlz)
      have hq0 : 0 ≤ g / l := div_nonneg hg0 hl0
      have hden : (1:ℚ) ≤ 1 + g / l := by linarith
      have hfrac_pos : 0 < 100 / (1 + g / l) := by positivity
      have hfrac_le : 100 / (1 + g / l) ≤ 100 := div_le_self (by norm_num) hden
      refine ⟨g, l, 100 - 100 / (1 + g / l), hg, hl, ?_, by linarith, by linarith,
        fun he => absurd he hlz, fun _ => rfl⟩
      rw [rsi14, if_pos h15, hg, hl]
      simp [hlz]

/-- C1 witness: a 15-session flat series (smoothed loss `0`) has RSI `100`. -/
theorem rsi14_spec_witness :
    15 ≤ flat15.length ∧
    ∃ g l r, ewmLast (1 / 14) (ups flat15) = some g ∧
      ewmLast (1 / 14) (downs flat15) = some l ∧
      rsi14 flat15 = some r ∧ 0 ≤ r ∧ r ≤ 100 ∧
      (l = 0 → r = 100) ∧ (l ≠ 0 → r = 100 - 100 / (1 + g / l)) :=
  ⟨by rw [flat15, List.length_replicate],
    (rsi14_spec flat15).2 (by rw [flat15, List.length_replicate])⟩

/-- C7: percent change is exactly `0` when the close series has length 1 and
when the previous close is `0`; otherwise it is `(last/previous - 1) * 100`
with the second-to-last close as previous. -/
theorem lastPrevPct_spec (close : List ℚ) (last prev pct : ℚ)
    (h : lastPrevPct close = some (last, prev, pct)) :
    (close.length = 1 → pct = 0) ∧ (prev = 0 → pct = 0) ∧
    (prev ≠ 0 → pct = (last / prev - 1) * 100) := by
  cases hc : close.getLast? with
  | none => rw [lastPrevPct, hc] at h; cases h
  | some lst =>
    rw [lastPrevPct, hc] at h
    simp only [Option.some.injEq, Prod.mk.injEq] at h
    obtain ⟨rfl, rfl, rfl⟩ := h
    refine ⟨?_, ?_, ?_⟩
    · intro hlen1
      rw [hlen1]
      simp only [show ¬ (2 ≤ 1) by omega, if_false]
      by_cases hz : lst = 0
      · simp [hz]
      · rw [if_pos hz, div_self hz]
        ring
    · intro hz
      rw [if_neg (by simpa using hz)]
    · intro hnz
      rw [if_pos hnz]

/-- C7 witness: a one-element series `[5]` yields previous `5` and percent
change `0`. -/
theorem lastPrevPct_spec_witness :
    lastPrevPct [(5:ℚ)] = some (5, 5, 0) ∧
    (([(5:ℚ)].length = 1 → (0:ℚ) = 0) ∧ ((5:ℚ) = 0 → (0:ℚ) = 0) ∧
      ((5:ℚ) ≠ 0 → (0:ℚ) = ((5:ℚ) / 5 - 1) * 100)) :=
  ⟨by norm_num [lastPrevPct], lastPrevPct_spec [(5:ℚ)] 5 5 0 (by norm_num [lastPrevPct])⟩

/-- C8: the 20-session moving average of closes is absent for fewer than 20
closes, and with at least 20 closes equals the arithmetic mean of the last 20
closes; closes `1..20` give `10.5 = 21/2`. -/
theorem sma20_spec :
    (∀ close : List ℚ, close.length < 20 → sma20 close = none) ∧
    (∀ close : List ℚ, 20 ≤ close.length →
        sma20 close = some ((close.reverse.take 20).sum / 20)) ∧
    sma20 [1, 2, 3, 4, 5, 6, 7, 8, 9, 10, 11, 12, 13, 14, 15, 16, 17, 18, 19, 20] =
      some (21 / 2) := by
  refine ⟨?_, ?_, ?_⟩
  · intro close h
    rw [sma20, if_neg (by omega)]
  · intro close h
    rw [sma20, if_pos h]
    have e : (close.drop (close.length - 20)).sum = (close.reverse.take 20).sum := by
      calc (close.drop (close.length - 20)).sum
          = (close.drop (close.length - 20)).reverse.sum := (List.sum_reverse _).symm
        _ = (close.reverse.take (close.length - (close.length - 20))).sum := by
            rw [List.reverse_drop]
        _ = (close.reverse.take 20).sum := by rw [Nat.sub_sub_self h]
    rw [e]
  · rw [sma20]
    norm_num [List.sum_cons]

/-- C8 witness: a 1-element series has no 20-session moving average. -/
theorem sma20_spec_witness :
    ([(1:ℚ)].length < 20 ∧ sma20 [(1:ℚ)] = none) :=
  ⟨by norm_num, sma20_spec.1 [(1:ℚ)] (by norm_num)⟩

/-! ## Helper lemmas: report passes and alerts -/

theorem detailPass_fst (fetch : List Char → Option SymbolInfo)
    (foreign : List Char → Option ℚ × Option ℚ) :
    ∀ symbols, (detailPass fetch foreign symbols).1 =
      symbols.map (lineFor fetch foreign) := by
  intro symbols
  induction symbols with
  | nil => rfl
  | cons s rest ih => simp [detailPass, ih]

theorem detailPass_snd (fetch : List Char → Option SymbolInfo)
    (foreign : List Char → Option ℚ × Option ℚ) :
    ∀ symbols, (detailPass fetch foreign symbols).2 = symbols := by
  intro symbols
  induction symbols with
  | nil => rfl
  | cons s rest ih => simp [detailPass, ih]

theorem alertsPass_snd (fetch : List Char → Option SymbolInfo) (up down mult : ℚ) :
    ∀ symbols, (alertsPass fetch up down mult symbols).2 = symbols := by
  intro symbols
  induction symbols with
  | nil => rfl
  | cons s rest ih => simp [alertsPass, ih]

theorem mem_surgeAlerts_up {up down : ℚ} {info : SymbolInfo} :
    AlertKind.surgeUp ∈ surgeAlerts up down info ↔ up ≤ info.pct := by
  by_cases h1 : up ≤ info.pct
  · simp [surgeAlerts, h1]
  · by_cases h2 : info.pct ≤ down <;> simp [surgeAlerts, h1, h2]

theorem mem_surgeAlerts_down {up down : ℚ} {info : SymbolInfo} :
    AlertKind.surgeDown ∈ surgeAlerts up down info ↔
      ¬ up ≤ info.pct ∧ info.pct ≤ down := by
  by_cases h1 : up ≤ info.pct
  · simp [surgeAlerts, h1]
  · by_cases h2 : info.pct ≤ down <;> simp [surgeAlerts, h1, h2]

theorem spike_not_mem_surgeAlerts {up down : ℚ} {info : SymbolInfo} :
    AlertKind.volumeSpike ∉ surgeAlerts up down info := by
  by_cases h1 : up ≤ info.pct
  · simp [surgeAlerts, h1]
  · by_cases h2 : info.pct ≤ down <;> simp [surgeAlerts, h1, h2]

theorem spikeAlerts_eq_of_ratio_some {mult : ℚ} {info : SymbolInfo} {r : ℚ}
    (hp : pyVolRatio info.vol info.avg5_vol = some r) :
    spikeAlerts mult info =
      if r ≠ 0 ∧ mult ≤ r then [AlertKind.volumeSpike] else [] := by
  rw [spikeAlerts, hp]

theorem spikeAlerts_eq_of_ratio_none {mult : ℚ} {info : SymbolInfo}
    (hp : pyVolRatio info.vol info.avg5_vol = none) :
    spikeAlerts mult info = [] := by
  rw [spikeAlerts, hp]

theorem vol_ratio_s_eq_of_ratio_some {vol avg : Option Int} {r : ℚ}
    (hp : pyVolRatio vol avg = some r) :
    vol_ratio_s vol avg =
      if r ≠ 0 then " (VolRatio=".toList ++ fmQ r ++ "×)".toList else [] := by
  rw [vol_ratio_s, hp]

theorem vol_ratio_s_eq_of_ratio_none {vol avg : Option Int}
    (hp : pyVolRatio vol avg = none) :
    vol_ratio_s vol avg = [] := by
  rw [vol_ratio_s, hp]

theorem mem_spikeAlerts_eq {mult : ℚ} {info : SymbolInfo} {k : AlertKind}
    (h : k ∈ spikeAlerts mult info) : k = AlertKind.volumeSpike := by
  rcases hp : pyVolRatio info.vol info.avg5_vol with - | r
  · rw [spikeAlerts_eq_of_ratio_none hp] at h
    simp at h
  · rw [spikeAlerts_eq_of_ratio_some hp] at h
    by_cases hc : r ≠ 0 ∧ mult ≤ r
    · rw [if_pos hc] at h
      simpa using h
    · rw [if_neg hc] at h
      simp at h

theorem mem_spikeAlerts_iff {mult : ℚ} {info : SymbolInfo} (hmult : 0 < mult) :
    AlertKind.volumeSpike ∈ spikeAlerts mult info ↔
      ∃ v a, info.vol = some v ∧ info.avg5_vol = some a ∧
        mult ≤ (v : ℚ) / (a : ℚ) := by
  rcases hv : info.vol with - | v
  · simp [spikeAlerts, pyVolRatio, hv]
  · rcases ha : info.avg5_vol with - | a
    · simp [spikeAlerts, pyVolRatio, hv, ha]
    · by_cases hva : v ≠ 0 ∧ a ≠ 0
      · have hp : pyVolRatio info.vol info.avg5_vol = some ((v : ℚ) / (a : ℚ)) := by
          rw [hv, ha]
          simp [pyVolRatio, hva]
        by_cases hm : mult ≤ (v : ℚ) / (a : ℚ)
        · have hr : ((v : ℚ) / (a : ℚ)) ≠ 0 := ne_of_gt (lt_of_lt_of_le hmult hm)
          rw [spikeAlerts_eq_of_ratio_some hp, if_pos ⟨hr, hm⟩]
          simp [hv, ha, hm]
        · have hno : ¬ (((v : ℚ) / (a : ℚ)) ≠ 0 ∧ mult ≤ (v : ℚ) / (a : ℚ)) := by
            rintro ⟨-, hc⟩
            exact hm hc
          rw [spikeAlerts_eq_of_ratio_some hp, if_neg hno]
          simp [hv, ha, hm]
      · have hp : pyVolRatio info.vol info.avg5_vol = none := by
          rw [hv, ha]
          simp [pyVolRatio, hva]
        have hz : ((v : ℚ) / (a : ℚ)) = 0 := by
          rcases not_and_or.mp hva with h | h
          · rw [not_not] at h
            rw [h]
            simp
          · rw [not_not] at h
            rw [h]
            simp
        rw [spikeAlerts_eq_of_ratio_none hp]
        simp only [List.not_mem_nil, false_iff, hv, ha]
        rintro ⟨v', a', hv', ha', hc⟩
        obtain rfl : v = v' := by simpa using hv'
        obtain rfl : a = a' := by simpa using ha'
        rw [hz] at hc
        linarith

/-! ## Claim theorems: report assembly, alerts, transport -/

/-- C4 (amended): the volume-ratio suffix of a detail line is nonempty iff
both the last volume and the 20-session volume baseline are present and BOTH
are nonzero (a present-but-zero last volume also suppresses the suffix); a
zero baseline thus never reaches the division. -/
theorem vol_ratio_s_spec :
    ∀ vol avg : Option Int,
      vol_ratio_s vol avg ≠ [] ↔
        (∃ v, vol = some v ∧ v ≠ 0) ∧ (∃ a, avg = some a ∧ a ≠ 0) := by
  intro vol avg
  rcases vol with - | v
  · simp [vol_ratio_s, pyVolRatio]
  · rcases avg with - | a
    · simp [vol_ratio_s, pyVolRatio]
    · by_cases hv : v = 0
      · simp [vol_ratio_s, pyVolRatio, hv]
      · by_cases ha : a = 0
        · simp [vol_ratio_s, pyVolRatio, hv, ha]
        · have hr : ((v : ℚ) / (a : ℚ)) ≠ 0 :=
            div_ne_zero (Int.cast_ne_zero.mpr hv) (Int.cast_ne_zero.mpr ha)
          refine iff_of_true ?_ ⟨⟨v, rfl, hv⟩, ⟨a, rfl, ha⟩⟩
          have hp : pyVolRatio (some v) (some a) = some ((v : ℚ) / (a : ℚ)) := by
            simp [pyVolRatio, hv, ha]
          rw [vol_ratio_s_eq_of_ratio_some hp, if_pos hr]
          intro hcontra
          rcases List.append_eq_nil.mp hcontra with ⟨h1, -⟩
          rcases List.append_eq_nil.mp h1 with ⟨h2, -⟩
          exact absurd h2 (by decide)

/-- C4 counterexample: with a present-but-zero last volume (`vol = 0`) and a
present nonzero baseline (`1000`), both values are present and the baseline
is nonzero, yet the suffix is omitted — refuting the claimed iff. -/
theorem vol_ratio_s_claim_cex :
    vol_ratio_s (some 0) (some 1000) = [] ∧
    (some (0 : Int) ≠ (none : Option Int) ∧
      some (1000 : Int) ≠ (none : Option Int) ∧ (1000 : Int) ≠ 0) := by
  refine ⟨?_, by simp, by simp, by norm_num⟩
  have hp : pyVolRatio (some 0) (some 1000) = none := by
    simp [pyVolRatio]
  rw [vol_ratio_s_eq_of_ratio_none hp]

/-- C5 (amended): with a missing bot token or chat id, `send_to_telegram`
returns false without attempting any network post and prints the text
itself; over the whole `main` run the report text is therefore printed
exactly TWICE (once as `main`'s preview, once by the transport fallback),
not once. -/
theorem send_missing_creds_spec :
    ∀ (botToken chatId : List Char) (post : List Char → Option Nat) (fuel : Nat)
      (report : List Char),
      botToken = [] ∨ chatId = [] →
      send_to_telegram botToken chatId post fuel report =
        some ⟨false, [report], 0⟩ ∧
      main_console botToken chatId post fuel report =
        some ([previewHeader, report, report], false) ∧
      (report ≠ previewHeader →
        List.count report [previewHeader, report, report] = 2) := by
  intro bt ci post fuel report h
  have hsend : send_to_telegram bt ci post fuel report =
      some ⟨false, [report], 0⟩ := by
    rw [send_to_telegram, if_pos h]
  refine ⟨hsend, ?_, ?_⟩
  · rw [main_console, hsend]
  · intro hne
    have h1 : ¬ (report = previewHeader) := hne
    simp [List.count_cons, h1]

/-- C5 witness: empty token, concrete chat id and report. -/
theorem send_missing_creds_spec_witness :
    (([] : List Char) = [] ∨ "x".toList = []) ∧
    (send_to_telegram [] "x".toList (fun _ => none) 0 "hi".toList =
        some ⟨false, ["hi".toList], 0⟩ ∧
      main_console [] "x".toList (fun _ => none) 0 "hi".toList =
        some ([previewHeader, "hi".toList, "hi".toList], false) ∧
      ("hi".toList ≠ previewHeader →
        List.count "hi".toList [previewHeader, "hi".toList, "hi".toList] = 2)) :=
  ⟨Or.inl rfl, send_missing_creds_spec [] "x".toList (fun _ => none) 0 "hi".toList
    (Or.inl rfl)⟩

/-- C5 counterexample: with both credentials missing the run prints the
report text twice (preview in `main`, fallback print in the transport),
refuting "printed exactly once". -/
theorem send_claim_cex :
    main_console [] [] (fun _ => none) 0 "hi".toList =
      some ([previewHeader, "hi".toList, "hi".toList], false) ∧
    List.count "hi".toList [previewHeader, "hi".toList, "hi".toList] = 2 ∧
    List.count "hi".toList [previewHeader, "hi".toList, "hi".toList] ≠ 1 := by
  refine ⟨?_, by decide, by decide⟩
  rw [main_console, send_to_telegram, if_pos (Or.inl rfl)]

/-- C6: alert thresholds are inclusive and per symbol: `pct ≥ up` gives
SurgeUp, otherwise `pct ≤ down` gives SurgeDown (mutually exclusive), and
independently a volume ratio `≥ mult` with both volumes present gives
VolumeSpike, so one symbol can emit both a surge and a spike alert
(stated for any positive multiplier, e.g. the default 2.0). -/
theorem evalAlerts_spec :
    ∀ (up down mult : ℚ) (info : SymbolInfo), 0 < mult →
      (AlertKind.surgeUp ∈ evalAlerts up down mult info ↔ up ≤ info.pct) ∧
      (AlertKind.surgeDown ∈ evalAlerts up down mult info ↔
        ¬ up ≤ info.pct ∧ info.pct ≤ down) ∧
      ¬ (AlertKind.surgeUp ∈ evalAlerts up down mult info ∧
         AlertKind.surgeDown ∈ evalAlerts up down mult info) ∧
      (AlertKind.volumeSpike ∈ evalAlerts up down mult info ↔
        ∃ v a, info.vol = some v ∧ info.avg5_vol = some a ∧
          mult ≤ (v : ℚ) / (a : ℚ)) ∧
      (up ≤ info.pct →
        (∃ v a, info.vol = some v ∧ info.avg5_vol = some a ∧
          mult ≤ (v : ℚ) / (a : ℚ)) →
        AlertKind.surgeUp ∈ evalAlerts up down mult info ∧
        AlertKind.volumeSpike ∈ evalAlerts up down mult info) := by
  intro up down mult info hmult
  have hup : AlertKind.surgeUp ∈ evalAlerts up down mult info ↔ up ≤ info.pct := by
    rw [evalAlerts, List.mem_append]
    constructor
    · rintro (h | h)
      · exact mem_surgeAlerts_up.mp h
      · cases mem_spikeAlerts_eq h
    · intro h
      exact Or.inl (mem_surgeAlerts_up.mpr h)
  have hdown : AlertKind.surgeDown ∈ evalAlerts up down mult info ↔
      ¬ up ≤ info.pct ∧ info.pct ≤ down := by
    rw [evalAlerts, List.mem_append]
    constructor
    · rintro (h | h)
      · exact mem_surgeAlerts_down.mp h
      · cases mem_spikeAlerts_eq h
    · intro h
      exact Or.inl (mem_surgeAlerts_down.mpr h)
  have hspike : AlertKind.volumeSpike ∈ evalAlerts up down mult info ↔
      ∃ v a, info.vol = some v ∧ info.avg5_vol = some a ∧
        mult ≤ (v : ℚ) / (a : ℚ) := by
    rw [evalAlerts, List.mem_append]
    constructor
    · rintro (h | h)
      · exact absurd h spike_not_mem_surgeAlerts
      · exact (mem_spikeAlerts_iff hmult).mp h
    · intro h
      exact Or.inr ((mem_spikeAlerts_iff hmult).mpr h)
  refine ⟨hup, hdown, ?_, hspike, ?_⟩
  · rintro ⟨h1, h2⟩
    exact (hdown.mp h2).1 (hup.mp h1)
  · intro h1 h2
    exact ⟨hup.mpr h1, hspike.mpr h2⟩

/-- C6 witness: with the default thresholds `(+3, -3, 2)`, a symbol at
exactly `+3%` with volume `2000` against baseline `1000` emits SurgeUp. -/
theorem evalAlerts_spec_witness :
    (0 : ℚ) < 2 ∧
    (AlertKind.surgeUp ∈
        evalAlerts 3 (-3) 2 ⟨10, 3, some 2000, none, some 1000, none, none, none⟩ ↔
      (3 : ℚ) ≤ (SymbolInfo.pct ⟨10, 3, some 2000, none, some 1000, none, none, none⟩)) :=
  ⟨by norm_num,
    (evalAlerts_spec 3 (-3) 2 ⟨10, 3, some 2000, none, some 1000, none, none, none⟩
      (by norm_num)).1⟩

/-- C9: a failed per-symbol fetch (modelled as `fetch s = none`) degrades to
the placeholder detail line for that symbol, every watchlist symbol still
yields exactly one detail line (so remaining symbols are unaffected), and the
full report is still assembled. -/
theorem report_degrades_spec :
    ∀ (fetch : List Char → Option SymbolInfo)
      (foreign : List Char → Option ℚ × Option ℚ) (symbols : List (List Char)),
      (detailPass fetch foreign symbols).1 = symbols.map (lineFor fetch foreign) ∧
      (detailPass fetch foreign symbols).1.length = symbols.length ∧
      (∀ s ∈ symbols, fetch s = none →
        lineFor fetch foreign s = placeholderLine s ∧
        placeholderLine s ∈ (detailPass fetch foreign symbols).1) ∧
      (∀ vnsIdx yfIdx fmarket up down mult now s, s ∈ symbols → fetch s = none →
        placeholderLine s ∈
          build_report_lines vnsIdx yfIdx fmarket fetch foreign up down mult
            symbols now) := by
  intro fetch foreign symbols
  have hfst := detailPass_fst fetch foreign symbols
  have hmem : ∀ s ∈ symbols, fetch s = none →
      placeholderLine s ∈ (detailPass fetch foreign symbols).1 := by
    intro s hs hnone
    rw [hfst]
    have : lineFor fetch foreign s = placeholderLine s := by
      rw [lineFor, hnone]
    exact this ▸ List.mem_map_of_mem (lineFor fetch foreign) hs
  refine ⟨hfst, by rw [hfst, List.length_map], ?_, ?_⟩
  · intro s hs hnone
    exact ⟨by rw [lineFor, hnone], hmem s hs hnone⟩
  · intro vnsIdx yfIdx fmarket up down mult now s hs hnone
    have hd := hmem s hs hnone
    rw [build_report_lines]
    refine List.mem_append_left _ (List.mem_append_left _ ?_)
    exact List.mem_cons_of_mem _ (List.mem_cons_of_mem _ (List.mem_cons_of_mem _
      (List.mem_cons_of_mem _ (List.mem_cons_of_mem _ hd))))

/-- C9 witness: a two-symbol watchlist whose fetches all fail still gets a
placeholder line for the first symbol. -/
theorem report_degrades_spec_witness :
    ("MBB".toList ∈ ["MBB".toList, "HPG".toList] ∧
      ((fun _ : List Char => (none : Option SymbolInfo)) "MBB".toList = none)) ∧
    (lineFor (fun _ => none) (fun _ => (none, none)) "MBB".toList =
        placeholderLine "MBB".toList ∧
      placeholderLine "MBB".toList ∈
        (detailPass (fun _ => none) (fun _ => (none, none))
          ["MBB".toList, "HPG".toList]).1) :=
  ⟨⟨by simp, rfl⟩,
    (report_degrades_spec (fun _ => none) (fun _ => (none, none))
      ["MBB".toList, "HPG".toList]).2.2.1 "MBB".toList (by simp) rfl⟩

/-- C10 (amended): one `build_report` run calls the per-symbol series fetch
(`yf_get_symbol`) exactly TWICE per watchlist symbol — once in the detail
loop and once in the alerts loop — and calls the index fetch
(`yf_get_index`) exactly once when the vnstock index attempt yields nothing
and not at all when it succeeds. -/
theorem fetch_trace_spec :
    ∀ (fetch : List Char → Option SymbolInfo)
      (foreign : List Char → Option ℚ × Option ℚ) (up down mult : ℚ)
      (symbols : List (List Char)) (s : List Char),
      List.count s (build_report_fetchTrace fetch foreign up down mult symbols) =
        2 * List.count s symbols ∧
      (∀ yfIdx, (indexFetch none yfIdx).2 = 1) ∧
      (∀ i yfIdx, (indexFetch (some i) yfIdx).2 = 0) := by
  intro fetch foreign up down mult symbols s
  refine ⟨?_, fun _ => rfl, fun _ _ => rfl⟩
  rw [build_report_fetchTrace, List.count_append, detailPass_snd, alertsPass_snd]
  omega

/-- C10 counterexample: on the one-symbol watchlist `["MBB"]` the per-symbol
fetch is called twice, not once. -/
theorem fetch_trace_claim_cex :
    List.count "MBB".toList
      (build_report_fetchTrace (fun _ => none) (fun _ => (none, none)) 3 (-3) 2
        ["MBB".toList]) = 2 ∧ (2 : Nat) ≠ 1 := by
  constructor
  · rw [build_report_fetchTrace, List.count_append, detailPass_snd, alertsPass_snd]
    simp
  · omega

end Bot
